import Mathlib

/-!
Shallow embedding of the market-depth fan-out service (kilo-oms/cpp-kafka).

Sources embedded:
* `src/include/OrderBookTypes.hpp` — `PriceLevel`, `CDCEvent`, `DepthConfig`,
  snapshot side maps (`std::map<uint64_t, PriceLevel, std::greater<>>` for bids,
  ascending `std::map` for asks).
* `src/src/OrderBook.cpp` — `OrderBook::process_snapshot`,
  `OrderBook::process_price_levels`, `OrderBook::generate_cdc_events`,
  `OrderBook::emit_cdc_event`.
* `src/src/MessageFactory.cpp` — `MessageFactory::create_snapshot_json`
  (the `market_stats` spread / mid_price arithmetic), `MessageRouter::route_snapshot`,
  `MessageRouter::calculate_partition`.
* `src/src/MarketDepthProcessor.cpp` — `processing_loop` metrics update,
  `process_message`, `publish_snapshots`, `convert_price_level`.

Machine integers are `Nat` with explicit `% 2^64` / `% 2^32` where the C++
performs wrapping arithmetic.  `std::map` is embedded as a strictly sorted
association list (`List (Nat × PriceLevel)`), with the comparator passed as a
`Nat → Nat → Bool` iteration-precedence function.  Wall-clock timestamp fields
(`timestamp_us`) are outside the embedding: no claim depends on them.
-/

namespace MD

/-- `2^64`, the modulus of C++ `uint64_t` arithmetic. -/
def U64 : Nat := 2 ^ 64

/-- `2^32`, the modulus of C++ `uint32_t` arithmetic. -/
def U32 : Nat := 2 ^ 32

/-- `PriceLevel` from OrderBookTypes.hpp: price, aggregated quantity, order
count, contributing exchanges. -/
structure PriceLevel where
  price : Nat
  quantity : Nat
  num_orders : Nat
  exchanges : List String
deriving DecidableEq

/-- `PriceLevel::operator==`: componentwise on price, quantity and
num_orders only — the `exchanges` field does not participate. -/
def PriceLevel.eqCpp (a b : PriceLevel) : Bool :=
  a.price == b.price && a.quantity == b.quantity && a.num_orders == b.num_orders

/-- `OrderSide` enum. -/
inductive OrderSide where
  | Buy
  | Sell
deriving DecidableEq

/-- `CDCEventType` enum. -/
inductive CDCEventType where
  | LevelAdded
  | LevelModified
  | LevelRemoved
  | BookCleared
deriving DecidableEq

/-- `CDCEvent` as filled in by `OrderBook::emit_cdc_event` (the wall-clock
`timestamp_us` field is not modelled). -/
structure CDCEvent where
  symbol : String
  side : OrderSide
  event_type : CDCEventType
  level : PriceLevel
  sequence : Nat
deriving DecidableEq

/-- Wire-level order record (`OrderMsg` view): exposes `qty()`. -/
structure OrderMsg where
  qty : Nat
deriving DecidableEq

/-- Wire-level level record (`OrderMsgLevel` view): `price()` and `orders()`. -/
structure OrderMsgLevel where
  price : Nat
  orders : List OrderMsg
deriving DecidableEq

/-- Decoded wire snapshot (`md::OrderBookSnapshot` FlatBuffers view).  A null
`buy_side()` / `sell_side()` behaves identically to an empty vector in
`OrderBook::process_snapshot`, so both are modelled as `[]`. -/
structure FBSnapshot where
  symbol : String
  seq : Nat
  recent_trade_price : Nat
  recent_trade_qty : Nat
  buy_side : List OrderMsgLevel
  sell_side : List OrderMsgLevel
deriving DecidableEq

/-- `DepthConfig` from OrderBookTypes.hpp. -/
structure DepthConfig where
  depth_levels : List Nat
  enable_cdc : Bool
  enable_snapshots : Bool
  max_price_levels : Nat
deriving DecidableEq

/-- Iteration precedence of the bid map (`std::greater<uint64_t>`):
`a` comes before `b` when `a > b`. -/
def bidBefore (a b : Nat) : Bool := decide (b < a)

/-- Iteration precedence of the ask map (default `std::less<uint64_t>`):
`a` comes before `b` when `a < b`. -/
def askBefore (a b : Nat) : Bool := decide (a < b)

/-- `m[k] = v` on a `std::map` embedded as an association list sorted by the
iteration precedence `before`: insert at the sorted position, overwriting an
existing binding of the same key. -/
def insertS (before : Nat → Nat → Bool) (k : Nat) (v : PriceLevel) :
    List (Nat × PriceLevel) → List (Nat × PriceLevel)
  | [] => [(k, v)]
  | (k0, v0) :: rest =>
    if before k k0 then (k, v) :: (k0, v0) :: rest
    else if k == k0 then (k, v) :: rest
    else (k0, v0) :: insertS before k v rest

/-- `m.find(k)` on the embedded map, returning the mapped level if present. -/
def lookupS (m : List (Nat × PriceLevel)) (k : Nat) : Option PriceLevel :=
  (m.find? (fun p => p.1 == k)).map (fun p => p.2)

/-- `m.find(k) != m.end()`. -/
def hasKey (m : List (Nat × PriceLevel)) (k : Nat) : Bool :=
  (lookupS m k).isSome

/-- Running `price_level.quantity += order->qty()` over the orders of a level
(uint64 wrapping accumulation), from `OrderBook::process_price_levels`. -/
def sumQty (orders : List OrderMsg) : Nat :=
  orders.foldl (fun a o => (a + o.qty) % U64) 0

/-- Running `price_level.num_orders++` over the orders of a level (uint32
wrapping count). -/
def countOrders (orders : List OrderMsg) : Nat :=
  orders.foldl (fun a _ => (a + 1) % U32) 0

/-- The `PriceLevel` built for one wire level inside
`OrderBook::process_price_levels`: price copied, quantity and order count
aggregated, `exchanges` left at its default (empty) value — the code never
assigns it. -/
def aggregateLevel (l : OrderMsgLevel) : PriceLevel :=
  { price := l.price
    quantity := sumQty l.orders
    num_orders := countOrders l.orders
    exchanges := [] }

/-- `OrderBook::process_price_levels`: walk the first `max_price_levels` input
levels, aggregate each and store it in the side map keyed by its price. -/
def process_price_levels (before : Nat → Nat → Bool) (maxLevels : Nat)
    (levels : List OrderMsgLevel) (m : List (Nat × PriceLevel)) :
    List (Nat × PriceLevel) :=
  (levels.take maxLevels).foldl
    (fun acc l => insertS before l.price (aggregateLevel l) acc) m

/-- Normalised per-symbol snapshot (`InternalOrderBookSnapshot` /
`md::OrderBookSnapshot` internal struct): bid side iterates descending, ask
side ascending.  The wall-clock `timestamp_us` field is not modelled. -/
structure Snapshot where
  symbol : String
  sequence : Nat
  bid_levels : List (Nat × PriceLevel)
  ask_levels : List (Nat × PriceLevel)
  last_trade_price : Nat
  last_trade_quantity : Nat
deriving DecidableEq

/-- Per-symbol `OrderBook` state: symbol, config, whether a CDC callback is
installed (`cdc_callback_` non-null), current and previous snapshots, message
count, initialised flag. -/
structure BookState where
  symbol : String
  config : DepthConfig
  has_callback : Bool
  current : Snapshot
  previous : Snapshot
  message_count : Nat
  initialized : Bool
deriving DecidableEq

/-- `OrderBook::generate_cdc_events` (both overloads have the same body):
first loop emits `LevelRemoved` for every old level whose price is absent from
the new map; second loop emits `LevelAdded` for new prices and `LevelModified`
for common prices whose levels differ under `PriceLevel::operator!=`.  Events
are produced in the maps' iteration order. -/
def generate_cdc_events (symbol : String)
    (old_levels new_levels : List (Nat × PriceLevel))
    (side : OrderSide) (sequence : Nat) : List CDCEvent :=
  (old_levels.filterMap (fun p =>
    if hasKey new_levels p.1 then none
    else some ⟨symbol, side, CDCEventType.LevelRemoved, p.2, sequence⟩))
  ++ (new_levels.filterMap (fun p =>
    match lookupS old_levels p.1 with
    | none => some ⟨symbol, side, CDCEventType.LevelAdded, p.2, sequence⟩
    | some old_level =>
      if old_level.eqCpp p.2 then none
      else some ⟨symbol, side, CDCEventType.LevelModified, p.2, sequence⟩))

/-- The `previous_snapshot_` assignment in `OrderBook::process_snapshot`:
only performed when the book was initialised on entry AND CDC is enabled
(OrderBook.cpp lines 41-44); otherwise the prior value is kept. -/
def prev_after (b : BookState) : Snapshot :=
  if b.initialized && b.config.enable_cdc then b.current else b.previous

/-- The rebuilt `current_snapshot_` of `OrderBook::process_snapshot`:
sequence and trade info copied from the input, both side maps cleared and
repopulated by `process_price_levels`. -/
def current_after (b : BookState) (s : FBSnapshot) : Snapshot :=
  { b.current with
    sequence := s.seq
    last_trade_price := s.recent_trade_price
    last_trade_quantity := s.recent_trade_qty
    bid_levels := process_price_levels bidBefore b.config.max_price_levels s.buy_side []
    ask_levels := process_price_levels askBefore b.config.max_price_levels s.sell_side [] }

/-- The CDC events emitted during one `OrderBook::process_snapshot` call
(OrderBook.cpp lines 71-76): buy side diffed first, then sell side; nothing is
emitted unless the book was initialised on entry, CDC is enabled and a
callback is installed (`emit_cdc_event` returns early on a null callback). -/
def events_after (b : BookState) (s : FBSnapshot) : List CDCEvent :=
  if b.initialized && b.config.enable_cdc && b.has_callback then
    generate_cdc_events b.symbol (prev_after b).bid_levels
      (current_after b s).bid_levels OrderSide.Buy s.seq
    ++ generate_cdc_events b.symbol (prev_after b).ask_levels
      (current_after b s).ask_levels OrderSide.Sell s.seq
  else []

/-- `OrderBook::process_snapshot`.  `none` models the `return false` paths
(here: symbol mismatch; the null-snapshot guard is outside a total model whose
input is always a decoded record).  On success returns the updated book state
and the CDC events passed to the callback, in emission order. -/
def process_snapshot (b : BookState) (s : FBSnapshot) :
    Option (BookState × List CDCEvent) :=
  if s.symbol = b.symbol then
    some ({ b with
            previous := prev_after b
            current := current_after b s
            message_count := (b.message_count + 1) % U64
            initialized := true },
          events_after b s)
  else none

/-- The removal part of the level-diff as the spec words it: one
`LevelRemoved` event, carrying the prior level, for each price in the previous
side but not the new side, in the previous side's iteration order. -/
def removedEvents (symbol : String) (side : OrderSide) (sequence : Nat)
    (old_levels new_levels : List (Nat × PriceLevel)) : List CDCEvent :=
  (old_levels.filter (fun p => ! hasKey new_levels p.1)).map
    (fun p => ⟨symbol, side, CDCEventType.LevelRemoved, p.2, sequence⟩)

/-- The add/modify part of the level-diff as the spec words it: walking the new
side in iteration order, a `LevelAdded` event (carrying the new level) for each
price absent from the previous side, and a `LevelModified` event (carrying the
new level) for each common price whose level differs componentwise in price,
quantity or number_of_orders. -/
def addedModifiedEvents (symbol : String) (side : OrderSide) (sequence : Nat)
    (old_levels new_levels : List (Nat × PriceLevel)) : List CDCEvent :=
  new_levels.filterMap (fun p =>
    if hasKey old_levels p.1 = false then
      some ⟨symbol, side, CDCEventType.LevelAdded, p.2, sequence⟩
    else
      match lookupS old_levels p.1 with
      | some old_level =>
        if old_level.eqCpp p.2 then none
        else some ⟨symbol, side, CDCEventType.LevelModified, p.2, sequence⟩
      | none => none)

/-- Interpreting one CDC event as a patch on a side map (the spec's round-trip
law): delete the carried price on `LevelRemoved`, insert the carried level on
`LevelAdded`, replace it on `LevelModified`. -/
def applyEvent (before : Nat → Nat → Bool) (m : List (Nat × PriceLevel))
    (e : CDCEvent) : List (Nat × PriceLevel) :=
  match e.event_type with
  | CDCEventType.LevelRemoved => m.filter (fun p => p.1 != e.level.price)
  | CDCEventType.LevelAdded => insertS before e.level.price e.level m
  | CDCEventType.LevelModified => insertS before e.level.price e.level m
  | CDCEventType.BookCleared => m

/-- Applying a list of CDC events as a patch, left to right. -/
def applyPatch (before : Nat → Nat → Bool) (m : List (Nat × PriceLevel))
    (events : List CDCEvent) : List (Nat × PriceLevel) :=
  events.foldl (applyEvent before) m

/-- `get_top_bids`: the first `depth` levels of the (descending) bid map. -/
def get_top_bids (s : Snapshot) (depth : Nat) : List PriceLevel :=
  (s.bid_levels.take depth).map (fun p => p.2)

/-- `get_top_asks`: the first `depth` levels of the (ascending) ask map. -/
def get_top_asks (s : Snapshot) (depth : Nat) : List PriceLevel :=
  (s.ask_levels.take depth).map (fun p => p.2)

/-- The `spread` and `mid_price` entries of `market_stats` in
`MessageFactory::create_snapshot_json` (MessageFactory.cpp lines 72-75), as the
scaled integers handed to `format_price`; `none` when either truncated side is
empty and the fields are omitted.  `spread` is uint64 subtraction
`top_asks[0].price - top_bids[0].price` — embedded as
`(2^64 + a - b) % 2^64`, which coincides with wrapping subtraction for inputs
below `2^64` — and `mid_price` is uint64 addition followed by integer
division by two. -/
def snapshot_market_stats (s : Snapshot) (depth : Nat) : Option (Nat × Nat) :=
  match get_top_asks s depth, get_top_bids s depth with
  | ta :: _, tb :: _ =>
    some ((U64 + ta.price - tb.price) % U64, ((ta.price + tb.price) % U64) / 2)
  | _, _ => none

/-- `MessageRouter::TopicConfig`.  The field written `snapshot_topic_stem`
here is `snapshot_topic_prefix` in MessageFactory.hpp (default
`"market_depth_snapshot_"`). -/
structure TopicConfig where
  snapshot_topic_stem : String
  cdc_topic : String
  use_depth_in_topic : Bool
  use_symbol_partitioning : Bool
  num_partitions : Nat
deriving DecidableEq

/-- `static_cast<uint32_t>(-1)`, the "let the bus assign" partition sentinel. -/
def UINT32_MAX : Nat := 2 ^ 32 - 1

/-- `MessageRouter::calculate_partition`: `hasher_(symbol) % num_partitions`.
`hasher_` is `std::hash<std::string>` — a function supplied by the C++
standard library, not by this repository, and implementation-defined — so it
enters the model as a parameter. -/
def calculate_partition (hasher : String → Nat) (num_partitions : Nat)
    (symbol : String) : Nat :=
  hasher symbol % num_partitions

/-- Routed Kafka message (`KafkaMessage` from MessageFactory.hpp). -/
structure KafkaMessage where
  topic : String
  key : String
  payload : String
  partition : Nat
deriving DecidableEq

/-- `MessageRouter::route_snapshot` (MessageFactory.cpp lines 218-231).  With
`use_depth_in_topic` the topic is the configured stem plus the decimal depth;
otherwise it is `snapshot_topic_prefix.substr(0, length - 1)` — the stem with
its trailing character removed (the comment in the source says "Remove
trailing _").  The key is always the symbol. -/
def route_snapshot (cfg : TopicConfig) (hasher : String → Nat)
    (symbol : String) (depth : Nat) (json_payload : String) : KafkaMessage :=
  let topic :=
    if cfg.use_depth_in_topic then cfg.snapshot_topic_stem ++ toString depth
    else cfg.snapshot_topic_stem.take (cfg.snapshot_topic_stem.length - 1)
  let partition :=
    if cfg.use_symbol_partitioning then
      calculate_partition hasher cfg.num_partitions symbol
    else UINT32_MAX
  ⟨topic, symbol, json_payload, partition⟩

/-- Modelled from the spec: §6.4 "The canonical hash is the FNV-1a 64-bit of
the symbol's UTF-8 bytes".  The hash the code actually calls,
`std::hash<std::string>`, is not part of this repository (it lives in the C++
standard library and its value is implementation-defined).  Characters are
taken as code points, which equal the UTF-8 bytes for the ASCII symbols this
service routes. -/
def fnv1a64 (s : String) : Nat :=
  s.data.foldl (fun h c => (Nat.xor h c.toNat * 1099511628211) % U64)
    14695981039346656037

/-- `MarketDepthProcessor::convert_price_level`: like `aggregateLevel`, but
pushes the configured exchange name onto `exchanges`. -/
def convert_price_level (exchange_name : String) (l : OrderMsgLevel) :
    PriceLevel :=
  { price := l.price
    quantity := sumQty l.orders
    num_orders := countOrders l.orders
    exchanges := [exchange_name] }

/-- One side of the internal snapshot built inside
`MarketDepthProcessor::publish_snapshots` (lines 250-279): walk the wire
levels while fewer than `depth` have been accepted, convert each, and store it
only when `level.price > 0 && level.quantity > 0`; rejected levels are skipped
silently. -/
def collect_side_levels (before : Nat → Nat → Bool) (depth : Nat)
    (exchange_name : String) (levels : List OrderMsgLevel) :
    List (Nat × PriceLevel) :=
  (levels.foldl
    (fun (acc : List (Nat × PriceLevel) × Nat) l =>
      if acc.2 < depth then
        let lv := convert_price_level exchange_name l
        if 0 < lv.price ∧ 0 < lv.quantity then
          (insertS before lv.price lv acc.1, acc.2 + 1)
        else acc
      else acc)
    ([], 0)).1

/-- One message enqueued by `KafkaPush` inside `publish_snapshots`: topic,
partition, and the depth and internal snapshot its JSON payload is built
from. -/
structure Publication where
  topic : String
  partition : Nat
  depth : Nat
  snapshot : Snapshot
deriving DecidableEq

/-- `MarketDepthProcessor::publish_snapshots`: for each configured depth,
rebuild both sides, and publish to `"market_depth." + symbol` with the
symbol-hash partition only when both sides reached `depth` stored levels. -/
def publish_snapshots (depth_levels : List Nat) (exchange_name : String)
    (hasher : String → Nat) (num_partitions : Nat)
    (symbol : String) (s : FBSnapshot) : List Publication :=
  depth_levels.filterMap (fun depth =>
    let bids := collect_side_levels bidBefore depth exchange_name s.buy_side
    let asks := collect_side_levels askBefore depth exchange_name s.sell_side
    if depth ≤ bids.length ∧ depth ≤ asks.length then
      some ⟨"market_depth." ++ symbol,
            calculate_partition hasher num_partitions symbol, depth,
            ⟨symbol, s.seq, bids, asks, s.recent_trade_price,
             s.recent_trade_qty⟩⟩
    else none)

/-- The envelope tag (`md::BookMsg`): one value designates a snapshot, all
other tag values are modelled by `Other`. -/
inductive BookMsgType where
  | OrderBookSnapshot
  | Other (tag : Nat)
deriving DecidableEq

/-- Decoded envelope (`fb::GetEnvelope` result): its tag and the result of
`msg_as_OrderBookSnapshot()`. -/
structure Envelope where
  msg_type : BookMsgType
  snapshot : Option FBSnapshot
deriving DecidableEq

/-- A message handed to `MarketDepthProcessor::process_message`:
`payload_valid` models `msg->payload && msg->len > 0`, `envelope` the
(possibly failing) FlatBuffers parse. -/
structure ConsumedMessage where
  payload_valid : Bool
  envelope : Option Envelope
deriving DecidableEq

/-- `MarketDepthProcessor::process_message` (lines 176-213): empty payload or
parse failure → `false`; a non-snapshot envelope tag → `true` with no publish
("Not an error, just not what we're looking for"); a snapshot envelope with a
null union → `false`; otherwise publish and return `true`. -/
def process_message (depth_levels : List Nat) (exchange_name : String)
    (hasher : String → Nat) (num_partitions : Nat) (msg : ConsumedMessage) :
    Bool × List Publication :=
  if msg.payload_valid = false then (false, [])
  else
    match msg.envelope with
    | none => (false, [])
    | some env =>
      if env.msg_type ≠ BookMsgType.OrderBookSnapshot then (true, [])
      else
        match env.snapshot with
        | none => (false, [])
        | some s =>
          (true, publish_snapshots depth_levels exchange_name hasher
            num_partitions s.symbol s)

/-- The counters of `PerformanceMetrics` the processing loop touches per
message. -/
structure Metrics where
  messages_consumed : Nat
  messages_processed : Nat
  messages_published : Nat
  processing_errors : Nat
deriving DecidableEq

/-- One iteration of `MarketDepthProcessor::processing_loop` (lines 147-163)
for a successfully consumed, non-error Kafka message: `messages_consumed`
always increments; `messages_processed` increments when `process_message`
returned `true`, `processing_errors` when it returned `false`;
`messages_published` increments once per `KafkaPush` inside the call.  All
counters are uint64. -/
def processing_loop_step (depth_levels : List Nat) (exchange_name : String)
    (hasher : String → Nat) (num_partitions : Nat)
    (m : Metrics) (msg : ConsumedMessage) : Metrics × List Publication :=
  let r := process_message depth_levels exchange_name hasher num_partitions msg
  ({ messages_consumed := (m.messages_consumed + 1) % U64
     messages_processed :=
       if r.1 then (m.messages_processed + 1) % U64 else m.messages_processed
     messages_published :=
       r.2.foldl (fun a _ => (a + 1) % U64) m.messages_published
     processing_errors :=
       if r.1 then m.processing_errors else (m.processing_errors + 1) % U64 },
   r.2)

/-- Strict sortedness of a side map under the iteration precedence `before`:
every earlier key strictly precedes every later key. -/
def SortedBy (before : Nat → Nat → Bool) (m : List (Nat × PriceLevel)) : Prop :=
  m.Pairwise (fun a b => before a.1 b.1 = true)

/-- `before` is a strict total order: irreflexive, transitive, and total on
distinct keys.  Both map comparators (`std::greater`, `std::less`) satisfy
this. -/
def StrictOrder (before : Nat → Nat → Bool) : Prop :=
  (∀ a, before a a = false)
  ∧ (∀ a b c, before a b = true → before b c = true → before a c = true)
  ∧ (∀ a b, a ≠ b → before a b = true ∨ before b a = true)

/-- Well-formedness of a side map as `OrderBook::process_price_levels` builds
it: strictly sorted, every key equal to its level's price field, and every
stored level's `exchanges` empty (the book rebuild never assigns it). -/
def WFSide (before : Nat → Nat → Bool) (m : List (Nat × PriceLevel)) : Prop :=
  SortedBy before m
  ∧ (∀ p ∈ m, (p : Nat × PriceLevel).2.price = p.1)
  ∧ (∀ p ∈ m, (p : Nat × PriceLevel).2.exchanges = [])

instance (before : Nat → Nat → Bool) (m : List (Nat × PriceLevel)) :
    Decidable (SortedBy before m) := by
  unfold SortedBy
  infer_instance

instance (before : Nat → Nat → Bool) (m : List (Nat × PriceLevel)) :
    Decidable (WFSide before m) := by
  unfold WFSide
  infer_instance

theorem bidBefore_strict : StrictOrder bidBefore := by
  refine ⟨fun a => by simp [bidBefore], fun a b c hab hbc => ?_, fun a b hne => ?_⟩
  · simp only [bidBefore, decide_eq_true_eq] at *
    exact Nat.lt_trans hbc hab
  · simp only [bidBefore, decide_eq_true_eq]
    omega

theorem askBefore_strict : StrictOrder askBefore := by
  refine ⟨fun a => by simp [askBefore], fun a b c hab hbc => ?_, fun a b hne => ?_⟩
  · simp only [askBefore, decide_eq_true_eq] at *
    exact Nat.lt_trans hab hbc
  · simp only [askBefore, decide_eq_true_eq]
    omega

theorem StrictOrder.asymm {before : Nat → Nat → Bool} (hso : StrictOrder before)
    {a b : Nat} (h : before a b = true) : before b a = false := by
  by_contra hc
  have hba : before b a = true := by
    cases hx : before b a with
    | false => exact absurd hx hc
    | true => rfl
  have := hso.2.1 a b a h hba
  rw [hso.1 a] at this
  exact Bool.false_ne_true this

theorem StrictOrder.ne_of_before {before : Nat → Nat → Bool}
    (hso : StrictOrder before) {a b : Nat} (h : before a b = true) : a ≠ b := by
  rintro rfl
  rw [hso.1 a] at h
  exact Bool.false_ne_true h

theorem lookupS_cons (k0 : Nat) (v0 : PriceLevel) (t : List (Nat × PriceLevel))
    (q : Nat) :
    lookupS ((k0, v0) :: t) q = if k0 = q then some v0 else lookupS t q := by
  by_cases h : k0 = q
  · simp [lookupS, List.find?_cons_of_pos, h]
  · have hb : ((k0, v0).1 == q) = false := by simpa using h
    simp [lookupS, List.find?_cons_of_neg, hb, h]

theorem lookupS_eq_none_iff (m : List (Nat × PriceLevel)) (q : Nat) :
    lookupS m q = none ↔ ∀ p ∈ m, (p : Nat × PriceLevel).1 ≠ q := by
  simp [lookupS, List.find?_eq_none]

theorem mem_of_lookupS_eq_some {m : List (Nat × PriceLevel)} {q : Nat}
    {v : PriceLevel} (h : lookupS m q = some v) : (q, v) ∈ m := by
  unfold lookupS at h
  cases hf : m.find? (fun p => p.1 == q) with
  | none => rw [hf] at h; simp at h
  | some p =>
    rw [hf] at h
    simp only [Option.map_some', Option.some.injEq] at h
    have hp := List.find?_some hf
    have hm : p ∈ m := List.mem_of_find?_eq_some hf
    have h1 : p.1 = q := by simpa using hp
    have hpv : p = (q, v) := by
      cases p
      simp_all
    rw [hpv] at hm
    exact hm

theorem hasKey_of_mem {m : List (Nat × PriceLevel)} {q : Nat} {v : PriceLevel}
    (h : (q, v) ∈ m) : hasKey m q = true := by
  unfold hasKey
  cases hl : lookupS m q with
  | some _ => rfl
  | none =>
    rw [lookupS_eq_none_iff] at hl
    exact absurd rfl (hl (q, v) h)

theorem lookupS_insertS (before : Nat → Nat → Bool) (k : Nat) (v : PriceLevel)
    (m : List (Nat × PriceLevel)) (q : Nat) :
    lookupS (insertS before k v m) q = if q = k then some v else lookupS m q := by
  induction m with
  | nil =>
    by_cases h : q = k <;> simp [insertS, lookupS_cons, h]
    omega
  | cons hd t ih =>
    obtain ⟨k0, v0⟩ := hd
    unfold insertS
    by_cases h1 : before k k0 = true
    · rw [if_pos h1, lookupS_cons]
      by_cases h : k = q
      · subst h
        simp [lookupS_cons]
      · rw [if_neg h, if_neg (fun hq => h hq.symm)]
    · rw [if_neg (by simp [h1])]
      by_cases h2 : k = k0
      · subst h2
        rw [if_pos (by simp), lookupS_cons, lookupS_cons]
        by_cases h : k = q
        · simp [h]
        · rw [if_neg h, if_neg h, if_neg (fun hq => h hq.symm)]
      · rw [if_neg (by simpa using h2), lookupS_cons, lookupS_cons, ih]
        by_cases h : k0 = q
        · subst h
          rw [if_pos rfl, if_pos rfl, if_neg (fun hq => h2 hq.symm)]
        · rw [if_neg h, if_neg h]

theorem mem_insertS {before : Nat → Nat → Bool} {k : Nat} {v : PriceLevel}
    {m : List (Nat × PriceLevel)} {p : Nat × PriceLevel}
    (h : p ∈ insertS before k v m) : p = (k, v) ∨ p ∈ m := by
  induction m with
  | nil =>
    simp only [insertS, List.mem_singleton] at h
    exact Or.inl h
  | cons hd t ih =>
    obtain ⟨k0, v0⟩ := hd
    unfold insertS at h
    by_cases h1 : before k k0 = true
    · rw [if_pos h1] at h
      rcases List.mem_cons.mp h with h | h
      · exact Or.inl h
      · exact Or.inr h
    · rw [if_neg (by simp [h1])] at h
      by_cases h2 : k = k0
      · subst h2
        rw [if_pos (by simp)] at h
        rcases List.mem_cons.mp h with h | h
        · exact Or.inl h
        · exact Or.inr (List.mem_cons_of_mem _ h)
      · rw [if_neg (by simpa using h2)] at h
        rcases List.mem_cons.mp h with h | h
        · subst h
          exact Or.inr (List.mem_cons_self _ _)
        · rcases ih h with h | h
          · exact Or.inl h
          · exact Or.inr (List.mem_cons_of_mem _ h)

theorem sortedBy_insertS {before : Nat → Nat → Bool} (hso : StrictOrder before)
    {m : List (Nat × PriceLevel)} (hs : SortedBy before m) (k : Nat)
    (v : PriceLevel) : SortedBy before (insertS before k v m) := by
  induction m with
  | nil => simp [insertS, SortedBy]
  | cons hd t ih =>
    obtain ⟨k0, v0⟩ := hd
    have hs0 : SortedBy before t := (List.pairwise_cons.mp hs).2
    have hhd : ∀ p ∈ t, before k0 (p : Nat × PriceLevel).1 = true :=
      (List.pairwise_cons.mp hs).1
    unfold insertS
    by_cases h1 : before k k0 = true
    · rw [if_pos h1]
      refine List.pairwise_cons.mpr ⟨?_, hs⟩
      intro p hp
      rcases List.mem_cons.mp hp with hp | hp
      · subst hp
        exact h1
      · exact hso.2.1 _ _ _ h1 (hhd p hp)
    · rw [if_neg (by simp [h1])]
      by_cases h2 : k = k0
      · subst h2
        rw [if_pos (by simp)]
        exact List.pairwise_cons.mpr ⟨hhd, hs0⟩
      · rw [if_neg (by simpa using h2)]
        refine List.pairwise_cons.mpr ⟨?_, ih hs0⟩
        intro p hp
        rcases mem_insertS hp with hp | hp
        · subst hp
          rcases hso.2.2 k k0 h2 with hx | hx
          · exact absurd hx h1
          · exact hx
        · exact hhd p hp

theorem lookupS_of_mem_sorted {before : Nat → Nat → Bool}
    (hso : StrictOrder before) {m : List (Nat × PriceLevel)}
    (hs : SortedBy before m) {q : Nat} {v : PriceLevel} (h : (q, v) ∈ m) :
    lookupS m q = some v := by
  induction m with
  | nil => simp at h
  | cons hd t ih =>
    obtain ⟨k0, v0⟩ := hd
    rw [lookupS_cons]
    rcases List.mem_cons.mp h with h | h
    · have h1 : q = k0 ∧ v = v0 := by
        injection h with ha hb
        exact ⟨ha, hb⟩
      rw [if_pos h1.1.symm, h1.2]
    · have hk : before k0 q = true := (List.pairwise_cons.mp hs).1 (q, v) h
      have hne : k0 ≠ q := hso.ne_of_before hk
      rw [if_neg hne]
      exact ih (List.pairwise_cons.mp hs).2 h

theorem lookupS_filter_ne (m : List (Nat × PriceLevel)) (c q : Nat) :
    lookupS (m.filter (fun p => p.1 != c)) q =
      if q = c then none else lookupS m q := by
  induction m with
  | nil => by_cases h : q = c <;> simp [lookupS, h]
  | cons hd t ih =>
    obtain ⟨k0, v0⟩ := hd
    rw [List.filter_cons]
    by_cases hk : k0 = c
    · rw [if_neg (by simp [hk]), ih, lookupS_cons]
      by_cases hq : q = c
      · rw [if_pos hq, if_pos hq]
      · rw [if_neg hq, if_neg hq, if_neg (by omega)]
    · rw [if_pos (by simpa using hk), lookupS_cons, lookupS_cons]
      by_cases hq : k0 = q
      · rw [if_pos hq, if_pos hq, if_neg (by omega)]
      · rw [if_neg hq, if_neg hq, ih]

theorem applyPatch_append (before : Nat → Nat → Bool)
    (m : List (Nat × PriceLevel)) (es1 es2 : List CDCEvent) :
    applyPatch before m (es1 ++ es2) =
      applyPatch before (applyPatch before m es1) es2 :=
  List.foldl_append _ _ _ _

theorem lookupS_applyEvent_ne {before : Nat → Nat → Bool}
    {m : List (Nat × PriceLevel)} {e : CDCEvent} {q : Nat}
    (h : e.level.price ≠ q) :
    lookupS (applyEvent before m e) q = lookupS m q := by
  unfold applyEvent
  cases htype : e.event_type
  · rw [lookupS_insertS, if_neg (by omega)]
  · rw [lookupS_insertS, if_neg (by omega)]
  · rw [lookupS_filter_ne, if_neg (by omega)]
  · rfl

theorem lookupS_applyPatch_absent {before : Nat → Nat → Bool}
    {es : List CDCEvent} {q : Nat}
    (h : ∀ e ∈ es, (e : CDCEvent).level.price ≠ q)
    (m : List (Nat × PriceLevel)) :
    lookupS (applyPatch before m es) q = lookupS m q := by
  induction es generalizing m with
  | nil => rfl
  | cons e t ih =>
    have hstep : applyPatch before m (e :: t) =
        applyPatch before (applyEvent before m e) t := rfl
    rw [hstep, ih (fun x hx => h x (List.mem_cons_of_mem _ hx)),
      lookupS_applyEvent_ne (h e (List.mem_cons_self _ _))]

theorem lookupS_applyPatch_removed {before : Nat → Nat → Bool}
    {es : List CDCEvent}
    (hall : ∀ e ∈ es, (e : CDCEvent).event_type = CDCEventType.LevelRemoved)
    {q : Nat} (hex : ∃ e ∈ es, (e : CDCEvent).level.price = q)
    (m : List (Nat × PriceLevel)) :
    lookupS (applyPatch before m es) q = none := by
  induction es generalizing m with
  | nil => simp at hex
  | cons e t ih =>
    have hstep : applyPatch before m (e :: t) =
        applyPatch before (applyEvent before m e) t := rfl
    rw [hstep]
    by_cases ht : ∃ x ∈ t, (x : CDCEvent).level.price = q
    · exact ih (fun x hx => hall x (List.mem_cons_of_mem _ hx)) ht _
    · have habs : ∀ x ∈ t, (x : CDCEvent).level.price ≠ q := by
        intro x hx hxq
        exact ht ⟨x, hx, hxq⟩
      have he : e.level.price = q := by
        rcases hex with ⟨x, hx, hxq⟩
        rcases List.mem_cons.mp hx with hx | hx
        · rw [← hx]; exact hxq
        · exact absurd hxq (habs x hx)
      rw [lookupS_applyPatch_absent habs]
      have htype := hall e (List.mem_cons_self _ _)
      unfold applyEvent
      rw [htype, lookupS_filter_ne, if_pos he.symm]

theorem lookupS_applyPatch_upsert {before : Nat → Nat → Bool}
    {es : List CDCEvent}
    (hall : ∀ e ∈ es, (e : CDCEvent).event_type = CDCEventType.LevelAdded
      ∨ (e : CDCEvent).event_type = CDCEventType.LevelModified)
    (hnd : es.Pairwise (fun a b => a.level.price ≠ b.level.price))
    {e : CDCEvent} (he : e ∈ es) {q : Nat} (hq : e.level.price = q)
    (m : List (Nat × PriceLevel)) :
    lookupS (applyPatch before m es) q = some e.level := by
  induction es generalizing m with
  | nil => cases he
  | cons e0 t ih =>
    have hstep : applyPatch before m (e0 :: t) =
        applyPatch before (applyEvent before m e0) t := rfl
    rw [hstep]
    rcases List.mem_cons.mp he with rfl | hm
    · have habs : ∀ x ∈ t, (x : CDCEvent).level.price ≠ q := by
        intro x hx
        rw [← hq]
        exact fun hc => (List.pairwise_cons.mp hnd).1 x hx hc.symm
      rw [lookupS_applyPatch_absent habs]
      rcases hall e (List.mem_cons_self _ _) with htype | htype <;>
        · unfold applyEvent
          rw [htype, lookupS_insertS, if_pos hq.symm]
    · exact ih (fun x hx => hall x (List.mem_cons_of_mem _ hx))
        (List.pairwise_cons.mp hnd).2 hm _

theorem sortedBy_applyEvent {before : Nat → Nat → Bool}
    (hso : StrictOrder before) {m : List (Nat × PriceLevel)}
    (hs : SortedBy before m) (e : CDCEvent) :
    SortedBy before (applyEvent before m e) := by
  unfold applyEvent
  cases e.event_type
  · exact sortedBy_insertS hso hs _ _
  · exact sortedBy_insertS hso hs _ _
  · exact List.Pairwise.filter _ hs
  · exact hs

theorem sortedBy_applyPatch {before : Nat → Nat → Bool}
    (hso : StrictOrder before) {m : List (Nat × PriceLevel)}
    (hs : SortedBy before m) (es : List CDCEvent) :
    SortedBy before (applyPatch before m es) := by
  induction es generalizing m with
  | nil => exact hs
  | cons e t ih => exact ih (sortedBy_applyEvent hso hs e)

theorem sorted_lookup_ext {before : Nat → Nat → Bool}
    (hso : StrictOrder before) {m1 m2 : List (Nat × PriceLevel)}
    (h1 : SortedBy before m1) (h2 : SortedBy before m2)
    (h : ∀ q, lookupS m1 q = lookupS m2 q) : m1 = m2 := by
  induction m1 generalizing m2 with
  | nil =>
    cases m2 with
    | nil => rfl
    | cons hd2 t2 =>
      obtain ⟨k2, v2⟩ := hd2
      have := h k2
      rw [lookupS_cons, if_pos rfl] at this
      simp [lookupS] at this
  | cons hd t ih =>
    obtain ⟨k, v⟩ := hd
    cases m2 with
    | nil =>
      have := h k
      rw [lookupS_cons, if_pos rfl] at this
      simp [lookupS] at this
    | cons hd2 t2 =>
      obtain ⟨k2, v2⟩ := hd2
      have hk : lookupS ((k2, v2) :: t2) k = some v := by
        rw [← h k, lookupS_cons, if_pos rfl]
      have hk2 : lookupS ((k, v) :: t) k2 = some v2 := by
        rw [h k2, lookupS_cons, if_pos rfl]
      by_cases hkk : k = k2
      · subst hkk
        rw [lookupS_cons, if_pos rfl] at hk
        injection hk with hv
        subst hv
        have htail : ∀ q, lookupS t q = lookupS t2 q := by
          intro q
          by_cases hq : q = k
          · subst hq
            have hn1 : lookupS t q = none := by
              rw [lookupS_eq_none_iff]
              intro p hp hpq
              have := (List.pairwise_cons.mp h1).1 p hp
              rw [hpq] at this
              rw [hso.1 q] at this
              exact Bool.false_ne_true this
            have hn2 : lookupS t2 q = none := by
              rw [lookupS_eq_none_iff]
              intro p hp hpq
              have := (List.pairwise_cons.mp h2).1 p hp
              rw [hpq] at this
              rw [hso.1 q] at this
              exact Bool.false_ne_true this
            rw [hn1, hn2]
          · have := h q
            rw [lookupS_cons, lookupS_cons, if_neg (by omega), if_neg (by omega)]
              at this
            exact this
        rw [ih (List.pairwise_cons.mp h1).2 (List.pairwise_cons.mp h2).2 htail]
      · exfalso
        have hmem1 : (k, v) ∈ (k2, v2) :: t2 := mem_of_lookupS_eq_some hk
        have hmem2 : (k2, v2) ∈ (k, v) :: t := mem_of_lookupS_eq_some hk2
        have hb1 : before k2 k = true := by
          rcases List.mem_cons.mp hmem1 with hx | hx
          · exact absurd (by injection hx) hkk
          · exact (List.pairwise_cons.mp h2).1 _ hx
        have hb2 : before k k2 = true := by
          rcases List.mem_cons.mp hmem2 with hx | hx
          · exact absurd (by injection hx; omega) hkk
          · exact (List.pairwise_cons.mp h1).1 _ hx
        rw [hso.asymm hb2] at hb1
        exact Bool.false_ne_true hb1

theorem eqCpp_refl (a : PriceLevel) : a.eqCpp a = true := by
  simp [PriceLevel.eqCpp]

theorem eqCpp_eq_of_exchanges_eq {a b : PriceLevel} (h : a.eqCpp b = true)
    (hx : a.exchanges = b.exchanges) : a = b := by
  unfold PriceLevel.eqCpp at h
  simp only [Bool.and_eq_true, beq_iff_eq] at h
  cases a
  cases b
  simp_all

theorem generate_cdc_events_eq_parts (symbol : String)
    (old_levels new_levels : List (Nat × PriceLevel)) (side : OrderSide)
    (sequence : Nat) :
    generate_cdc_events symbol old_levels new_levels side sequence =
      removedEvents symbol side sequence old_levels new_levels
      ++ addedModifiedEvents symbol side sequence old_levels new_levels := by
  unfold generate_cdc_events removedEvents addedModifiedEvents
  congr 1
  · induction old_levels with
    | nil => rfl
    | cons p t ih =>
      rw [List.filterMap_cons, List.filter_cons]
      cases hk : hasKey new_levels p.1 with
      | true => simp [hk, ih]
      | false => simp [hk, ih]
  · apply List.filterMap_congr
    intro p _
    unfold hasKey
    cases hl : lookupS old_levels p.1 <;> simp [hl]

theorem mem_removedEvents {symbol : String} {side : OrderSide}
    {sequence : Nat} {old_levels new_levels : List (Nat × PriceLevel)}
    {e : CDCEvent} (he : e ∈ removedEvents symbol side sequence old_levels new_levels) :
    e.event_type = CDCEventType.LevelRemoved ∧ e.side = side
      ∧ e.sequence = sequence
      ∧ ∃ p ∈ old_levels, hasKey new_levels (p : Nat × PriceLevel).1 = false
          ∧ e.level = (p : Nat × PriceLevel).2 := by
  unfold removedEvents at he
  rcases List.mem_map.mp he with ⟨p, hp, hpe⟩
  have hf := List.of_mem_filter hp
  refine ⟨by rw [← hpe], by rw [← hpe], by rw [← hpe], p, List.mem_of_mem_filter hp,
    by simpa using hf, by rw [← hpe]⟩

theorem removedEvents_mem {symbol : String} {side : OrderSide} {sequence : Nat}
    {old_levels new_levels : List (Nat × PriceLevel)}
    {p : Nat × PriceLevel} (hp : p ∈ old_levels)
    (h : hasKey new_levels p.1 = false) :
    (⟨symbol, side, CDCEventType.LevelRemoved, p.2, sequence⟩ : CDCEvent)
      ∈ removedEvents symbol side sequence old_levels new_levels := by
  unfold removedEvents
  exact List.mem_map.mpr ⟨p, List.mem_filter.mpr ⟨hp, by simpa using h⟩, rfl⟩

theorem mem_addedModifiedEvents {symbol : String} {side : OrderSide}
    {sequence : Nat} {old_levels new_levels : List (Nat × PriceLevel)}
    {e : CDCEvent}
    (he : e ∈ addedModifiedEvents symbol side sequence old_levels new_levels) :
    (e.event_type = CDCEventType.LevelAdded
      ∨ e.event_type = CDCEventType.LevelModified)
      ∧ e.side = side ∧ e.sequence = sequence
      ∧ ∃ p ∈ new_levels, e.level = (p : Nat × PriceLevel).2 := by
  unfold addedModifiedEvents at he
  rcases List.mem_filterMap.mp he with ⟨p, hp, hpe⟩
  split at hpe
  · injection hpe with hpe
    rw [← hpe]
    exact ⟨Or.inl rfl, rfl, rfl, p, hp, rfl⟩
  · split at hpe
    · split at hpe
      · cases hpe
      · injection hpe with hpe
        rw [← hpe]
        exact ⟨Or.inr rfl, rfl, rfl, p, hp, rfl⟩
    · cases hpe

theorem addedModifiedEvents_mem_added {symbol : String} {side : OrderSide}
    {sequence : Nat} {old_levels new_levels : List (Nat × PriceLevel)}
    {p : Nat × PriceLevel} (hp : p ∈ new_levels)
    (h : hasKey old_levels p.1 = false) :
    (⟨symbol, side, CDCEventType.LevelAdded, p.2, sequence⟩ : CDCEvent)
      ∈ addedModifiedEvents symbol side sequence old_levels new_levels := by
  unfold addedModifiedEvents
  exact List.mem_filterMap.mpr ⟨p, hp, by rw [if_pos h]⟩

theorem addedModifiedEvents_mem_modified {symbol : String} {side : OrderSide}
    {sequence : Nat} {old_levels new_levels : List (Nat × PriceLevel)}
    {p : Nat × PriceLevel} {olv : PriceLevel} (hp : p ∈ new_levels)
    (hl : lookupS old_levels p.1 = some olv) (hne : olv.eqCpp p.2 = false) :
    (⟨symbol, side, CDCEventType.LevelModified, p.2, sequence⟩ : CDCEvent)
      ∈ addedModifiedEvents symbol side sequence old_levels new_levels := by
  unfold addedModifiedEvents
  refine List.mem_filterMap.mpr ⟨p, hp, ?_⟩
  have hk : hasKey old_levels p.1 = true := by
    unfold hasKey
    rw [hl]
    rfl
  rw [if_neg (by simp [hk])]
  simp [hl, hne]

theorem pairwise_filterMap_mem {α β : Type} {R : β → β → Prop}
    {S : α → α → Prop} (f : α → Option β) {l : List α} (hl : l.Pairwise S)
    (hf : ∀ a ∈ l, ∀ b ∈ l, S a b →
      ∀ x y, f a = some x → f b = some y → R x y) :
    (l.filterMap f).Pairwise R := by
  induction l with
  | nil => simp
  | cons a t ih =>
    rw [List.filterMap_cons]
    have hpc := List.pairwise_cons.mp hl
    have ihr := ih hpc.2 (fun x hx y hy hxy =>
      hf x (List.mem_cons_of_mem _ hx) y (List.mem_cons_of_mem _ hy) hxy)
    cases hfa : f a with
    | none => exact ihr
    | some x =>
      refine List.pairwise_cons.mpr ⟨?_, ihr⟩
      intro y hy
      rcases List.mem_filterMap.mp hy with ⟨b, hb, hfb⟩
      exact hf a (List.mem_cons_self _ _) b (List.mem_cons_of_mem _ hb)
        (hpc.1 b hb) x y hfa hfb

theorem addedModifiedEvents_pairwise_prices {before : Nat → Nat → Bool}
    (hso : StrictOrder before) {new_levels : List (Nat × PriceLevel)}
    (hs : SortedBy before new_levels)
    (hinv : ∀ p ∈ new_levels, (p : Nat × PriceLevel).2.price = p.1)
    (symbol : String) (side : OrderSide) (sequence : Nat)
    (old_levels : List (Nat × PriceLevel)) :
    (addedModifiedEvents symbol side sequence old_levels new_levels).Pairwise
      (fun a b => a.level.price ≠ b.level.price) := by
  unfold addedModifiedEvents
  apply pairwise_filterMap_mem _ hs
  intro a ha b hb hab x y hx hy
  have hxa : x.level = a.2 := by
    split at hx
    · injection hx with hx
      rw [← hx]
    · split at hx
      · split at hx
        · cases hx
        · injection hx with hx
          rw [← hx]
      · cases hx
  have hyb : y.level = b.2 := by
    split at hy
    · injection hy with hy
      rw [← hy]
    · split at hy
      · split at hy
        · cases hy
        · injection hy with hy
          rw [← hy]
      · cases hy
  rw [hxa, hyb, hinv a ha, hinv b hb]
  exact hso.ne_of_before hab

theorem generate_cdc_events_self {before : Nat → Nat → Bool}
    (hso : StrictOrder before) {m : List (Nat × PriceLevel)}
    (hs : SortedBy before m) (symbol : String) (side : OrderSide)
    (sequence : Nat) :
    generate_cdc_events symbol m m side sequence = [] := by
  unfold generate_cdc_events
  rw [List.append_eq_nil]
  constructor
  · rw [List.filterMap_eq_nil_iff]
    intro p hp
    have hmem : ((p : Nat × PriceLevel).1, (p : Nat × PriceLevel).2) ∈ m := by
      simpa using hp
    simp [hasKey_of_mem hmem]
  · rw [List.filterMap_eq_nil_iff]
    intro p hp
    have hmem : ((p : Nat × PriceLevel).1, (p : Nat × PriceLevel).2) ∈ m := by
      simpa using hp
    simp [lookupS_of_mem_sorted hso hs hmem, eqCpp_refl]

theorem wfSide_insertS {before : Nat → Nat → Bool} (hso : StrictOrder before)
    {m : List (Nat × PriceLevel)} (hwf : WFSide before m) {k : Nat}
    {v : PriceLevel} (hkv : v.price = k) (hx : v.exchanges = []) :
    WFSide before (insertS before k v m) := by
  refine ⟨sortedBy_insertS hso hwf.1 k v, ?_, ?_⟩
  · intro p hp
    rcases mem_insertS hp with hp | hp
    · rw [hp]
      exact hkv
    · exact hwf.2.1 p hp
  · intro p hp
    rcases mem_insertS hp with hp | hp
    · rw [hp]
      exact hx
    · exact hwf.2.2 p hp

theorem wfSide_nil (before : Nat → Nat → Bool) : WFSide before [] := by
  refine ⟨List.Pairwise.nil, ?_, ?_⟩ <;> intro p hp <;> cases hp

theorem wfSide_foldl_aggregate {before : Nat → Nat → Bool}
    (hso : StrictOrder before) (levels : List OrderMsgLevel) :
    ∀ m : List (Nat × PriceLevel), WFSide before m →
      WFSide before (levels.foldl
        (fun acc l => insertS before l.price (aggregateLevel l) acc) m) := by
  induction levels with
  | nil => intro m hm; exact hm
  | cons l t ih =>
    intro m hm
    exact ih _ (wfSide_insertS hso hm rfl rfl)

theorem wfSide_process_price_levels {before : Nat → Nat → Bool}
    (hso : StrictOrder before) (maxLevels : Nat)
    (levels : List OrderMsgLevel) :
    WFSide before (process_price_levels before maxLevels levels []) :=
  wfSide_foldl_aggregate hso (levels.take maxLevels) [] (wfSide_nil before)

theorem mem_foldl_aggregate {before : Nat → Nat → Bool}
    (levels : List OrderMsgLevel) :
    ∀ (m : List (Nat × PriceLevel)) (p : Nat × PriceLevel),
      p ∈ levels.foldl
        (fun acc l => insertS before l.price (aggregateLevel l) acc) m →
      (∃ l ∈ levels, p = (l.price, aggregateLevel l)) ∨ p ∈ m := by
  induction levels with
  | nil => intro m p hp; exact Or.inr hp
  | cons l t ih =>
    intro m p hp
    rcases ih _ p hp with h | h
    · rcases h with ⟨l', hl', hpe⟩
      exact Or.inl ⟨l', List.mem_cons_of_mem _ hl', hpe⟩
    · rcases mem_insertS h with h | h
      · exact Or.inl ⟨l, List.mem_cons_self _ _, h⟩
      · exact Or.inr h

theorem mem_process_price_levels {before : Nat → Nat → Bool}
    {maxLevels : Nat} {levels : List OrderMsgLevel} {p : Nat × PriceLevel}
    (hp : p ∈ process_price_levels before maxLevels levels []) :
    ∃ l ∈ levels.take maxLevels, p = (l.price, aggregateLevel l) := by
  rcases mem_foldl_aggregate (levels.take maxLevels) [] p hp with h | h
  · exact h
  · cases h

theorem foldl_add_mod_eq {M : Nat} (l : List Nat) :
    ∀ acc : Nat, acc + l.sum < M →
      l.foldl (fun a x => (a + x) % M) acc = acc + l.sum := by
  induction l with
  | nil => intro acc _; simp
  | cons x t ih =>
    intro acc h
    simp only [List.sum_cons] at h
    have hx : acc + x < M := by omega
    simp only [List.foldl_cons, Nat.mod_eq_of_lt hx]
    rw [ih (acc + x) (by omega)]
    simp only [List.sum_cons]
    omega

theorem sumQty_eq_sum {orders : List OrderMsg}
    (h : (orders.map OrderMsg.qty).sum < U64) :
    sumQty orders = (orders.map OrderMsg.qty).sum := by
  unfold sumQty
  have hfold : orders.foldl (fun a o => (a + o.qty) % U64) 0 =
      (orders.map OrderMsg.qty).foldl (fun a x => (a + x) % U64) 0 := by
    rw [List.foldl_map]
  rw [hfold, foldl_add_mod_eq _ 0 (by omega)]
  omega

theorem foldl_count_mod_eq {M : Nat} {α : Type} (l : List α) :
    ∀ acc : Nat, acc + l.length < M →
      l.foldl (fun a _ => (a + 1) % M) acc = acc + l.length := by
  induction l with
  | nil => intro acc _; simp
  | cons x t ih =>
    intro acc h
    simp only [List.length_cons] at h
    have hx : acc + 1 < M := by omega
    simp only [List.foldl_cons, Nat.mod_eq_of_lt hx]
    rw [ih (acc + 1) (by omega)]
    simp only [List.length_cons]
    omega

theorem countOrders_eq_length {orders : List OrderMsg}
    (h : orders.length < U32) : countOrders orders = orders.length := by
  unfold countOrders
  rw [foldl_count_mod_eq _ 0 (by omega)]
  omega

theorem addedModifiedEvents_level_eq {symbol : String} {side : OrderSide}
    {sequence : Nat} {old_levels : List (Nat × PriceLevel)}
    {p : Nat × PriceLevel} {e : CDCEvent}
    (hpe : (if hasKey old_levels p.1 = false then
        some (⟨symbol, side, CDCEventType.LevelAdded, p.2, sequence⟩ : CDCEvent)
      else
        match lookupS old_levels p.1 with
        | some old_level =>
          if old_level.eqCpp p.2 then none
          else some ⟨symbol, side, CDCEventType.LevelModified, p.2, sequence⟩
        | none => none) = some e) :
    e.level = p.2 := by
  split at hpe
  · injection hpe with hpe
    rw [← hpe]
  · split at hpe
    · split at hpe
      · cases hpe
      · injection hpe with hpe
        rw [← hpe]
    · cases hpe

theorem addedModifiedEvents_absent_of_eqCpp {before : Nat → Nat → Bool}
    (hso : StrictOrder before) {old_levels new_levels : List (Nat × PriceLevel)}
    (hs : SortedBy before new_levels)
    (hinv : ∀ p ∈ new_levels, (p : Nat × PriceLevel).2.price = p.1)
    {q : Nat} {nv ov : PriceLevel}
    (hnv : lookupS new_levels q = some nv)
    (hov : lookupS old_levels q = some ov) (heq : ov.eqCpp nv = true)
    (symbol : String) (side : OrderSide) (sequence : Nat) :
    ∀ e ∈ addedModifiedEvents symbol side sequence old_levels new_levels,
      (e : CDCEvent).level.price ≠ q := by
  intro e he hq
  unfold addedModifiedEvents at he
  rcases List.mem_filterMap.mp he with ⟨p, hp, hpe⟩
  have hlev : e.level = p.2 := addedModifiedEvents_level_eq hpe
  have hp1 : p.1 = q := by
    rw [hlev, hinv p hp] at hq
    exact hq
  have hpmem : (q, p.2) ∈ new_levels := by
    rw [← hp1]
    simpa using hp
  have hlook : lookupS new_levels q = some p.2 :=
    lookupS_of_mem_sorted hso hs hpmem
  have hpv : p.2 = nv := by
    rw [hlook] at hnv
    injection hnv
  have hk : hasKey old_levels p.1 = true := by
    unfold hasKey
    rw [hp1, hov]
    rfl
  rw [if_neg (by simp [hk]), hp1, hov, hpv] at hpe
  simp [heq] at hpe

theorem applyPatch_generate {before : Nat → Nat → Bool}
    (hso : StrictOrder before) {old_levels new_levels : List (Nat × PriceLevel)}
    (hold : WFSide before old_levels) (hnew : WFSide before new_levels)
    (symbol : String) (side : OrderSide) (sequence : Nat) :
    applyPatch before old_levels
      (generate_cdc_events symbol old_levels new_levels side sequence)
      = new_levels := by
  rw [generate_cdc_events_eq_parts, applyPatch_append]
  apply sorted_lookup_ext hso
    (sortedBy_applyPatch hso (sortedBy_applyPatch hso hold.1 _) _) hnew.1
  intro q
  by_cases hknew : hasKey new_levels q = true
  · obtain ⟨nv, hnv⟩ : ∃ nv, lookupS new_levels q = some nv := by
      unfold hasKey at hknew
      exact Option.isSome_iff_exists.mp hknew
    have hmemnew : (q, nv) ∈ new_levels := mem_of_lookupS_eq_some hnv
    have hprice : nv.price = q := hnew.2.1 (q, nv) hmemnew
    have hremabs : ∀ e ∈ removedEvents symbol side sequence old_levels new_levels,
        (e : CDCEvent).level.price ≠ q := by
      intro e he hq
      obtain ⟨_, _, _, p, hp, hnk, hlev⟩ := mem_removedEvents he
      rw [hlev, hold.2.1 p hp] at hq
      rw [hq] at hnk
      rw [hknew] at hnk
      cases hnk
    have hm1 : lookupS (applyPatch before old_levels
        (removedEvents symbol side sequence old_levels new_levels)) q
        = lookupS old_levels q := lookupS_applyPatch_absent hremabs _
    have hall : ∀ e ∈ addedModifiedEvents symbol side sequence old_levels new_levels,
        (e : CDCEvent).event_type = CDCEventType.LevelAdded
          ∨ (e : CDCEvent).event_type = CDCEventType.LevelModified :=
      fun e he => (mem_addedModifiedEvents he).1
    have hnd := addedModifiedEvents_pairwise_prices hso hnew.1 hnew.2.1
      symbol side sequence old_levels
    cases hkold : lookupS old_levels q with
    | none =>
      have hof : hasKey old_levels (q, nv).1 = false := by
        unfold hasKey
        rw [hkold]
        rfl
      have hadd : (⟨symbol, side, CDCEventType.LevelAdded, nv, sequence⟩ : CDCEvent)
          ∈ addedModifiedEvents symbol side sequence old_levels new_levels :=
        addedModifiedEvents_mem_added hmemnew hof
      rw [lookupS_applyPatch_upsert hall hnd hadd hprice, hnv]
    | some ov =>
      by_cases heq : ov.eqCpp nv = true
      · have hupabs := addedModifiedEvents_absent_of_eqCpp hso hnew.1 hnew.2.1
          hnv hkold heq symbol side sequence
        rw [lookupS_applyPatch_absent hupabs, hm1, hkold, hnv]
        have hovmem : (q, ov) ∈ old_levels := mem_of_lookupS_eq_some hkold
        have hove : ov.exchanges = [] := hold.2.2 (q, ov) hovmem
        have hnve : nv.exchanges = [] := hnew.2.2 (q, nv) hmemnew
        rw [eqCpp_eq_of_exchanges_eq heq (by rw [hove, hnve])]
      · have hovq : lookupS old_levels (q, nv).1 = some ov := hkold
        have hmod : (⟨symbol, side, CDCEventType.LevelModified, nv, sequence⟩ : CDCEvent)
            ∈ addedModifiedEvents symbol side sequence old_levels new_levels :=
          addedModifiedEvents_mem_modified hmemnew hovq (by simpa using heq)
        rw [lookupS_applyPatch_upsert hall hnd hmod hprice, hnv]
  · have hknew' : hasKey new_levels q = false := by simpa using hknew
    have hnvnone : lookupS new_levels q = none := by
      unfold hasKey at hknew'
      simpa using hknew'
    have hupabs : ∀ e ∈ addedModifiedEvents symbol side sequence old_levels new_levels,
        (e : CDCEvent).level.price ≠ q := by
      intro e he hq
      obtain ⟨_, _, _, p, hp, hlev⟩ := mem_addedModifiedEvents he
      rw [hlev, hnew.2.1 p hp] at hq
      have : hasKey new_levels q = true := by
        rw [← hq]
        exact hasKey_of_mem (by simpa using hp)
      rw [hknew'] at this
      cases this
    rw [lookupS_applyPatch_absent hupabs, hnvnone]
    cases hkold : lookupS old_levels q with
    | none =>
      have hremabs : ∀ e ∈ removedEvents symbol side sequence old_levels new_levels,
          (e : CDCEvent).level.price ≠ q := by
        intro e he hq
        obtain ⟨_, _, _, p, hp, hnk, hlev⟩ := mem_removedEvents he
        rw [hlev, hold.2.1 p hp] at hq
        have : hasKey old_levels q = true := by
          rw [← hq]
          exact hasKey_of_mem (by simpa using hp)
        unfold hasKey at this
        rw [hkold] at this
        cases this
      rw [lookupS_applyPatch_absent hremabs, hkold]
    | some ov =>
      have hovmem : (q, ov) ∈ old_levels := mem_of_lookupS_eq_some hkold
      have hrem : (⟨symbol, side, CDCEventType.LevelRemoved, ov, sequence⟩ : CDCEvent)
          ∈ removedEvents symbol side sequence old_levels new_levels :=
        removedEvents_mem hovmem hknew'
      apply lookupS_applyPatch_removed
        (fun e he => (mem_removedEvents he).1)
        ⟨_, hrem, by
          show ov.price = q
          exact hold.2.1 (q, ov) hovmem⟩

theorem generate_cdc_events_side {symbol : String}
    {old_levels new_levels : List (Nat × PriceLevel)} {side : OrderSide}
    {sequence : Nat} {e : CDCEvent}
    (he : e ∈ generate_cdc_events symbol old_levels new_levels side sequence) :
    e.side = side := by
  rw [generate_cdc_events_eq_parts] at he
  rcases List.mem_append.mp he with he | he
  · exact (mem_removedEvents he).2.1
  · exact (mem_addedModifiedEvents he).2.1

theorem process_snapshot_inv {b : BookState} {s : FBSnapshot} {b' : BookState}
    {events : List CDCEvent} (h : process_snapshot b s = some (b', events)) :
    s.symbol = b.symbol
    ∧ b' = { b with
             previous := prev_after b
             current := current_after b s
             message_count := (b.message_count + 1) % U64
             initialized := true }
    ∧ events = events_after b s := by
  unfold process_snapshot at h
  split at h
  case isTrue hsym =>
    injection h with h
    injection h with h1 h2
    exact ⟨hsym, h1.symm, h2.symm⟩
  case isFalse => cases h

/-- C1: for every already-initialised BookState with `enable_cdc` true and a
callback installed, a successful `process_snapshot` emits exactly the
level-diff of previous (the entry current) versus current, per side: the
`LevelRemoved` events for prices dropped from each side (carrying the prior
level), then the `LevelAdded`/`LevelModified` events for new and
componentwise-changed prices (carrying the new level), in the order buy-side
removals, buy-side adds/modifies, sell-side removals, sell-side adds/modifies,
each event carrying the input sequence. -/
theorem cdc_events_are_exact_level_diff
    (b : BookState) (s : FBSnapshot) (b' : BookState) (events : List CDCEvent)
    (hinit : b.initialized = true) (hcdc : b.config.enable_cdc = true)
    (hcb : b.has_callback = true)
    (h : process_snapshot b s = some (b', events)) :
    events =
      removedEvents b.symbol OrderSide.Buy s.seq
        b.current.bid_levels b'.current.bid_levels
      ++ addedModifiedEvents b.symbol OrderSide.Buy s.seq
        b.current.bid_levels b'.current.bid_levels
      ++ removedEvents b.symbol OrderSide.Sell s.seq
        b.current.ask_levels b'.current.ask_levels
      ++ addedModifiedEvents b.symbol OrderSide.Sell s.seq
        b.current.ask_levels b'.current.ask_levels := by
  obtain ⟨hsym, hb', hev⟩ := process_snapshot_inv h
  subst hb'
  rw [hev]
  unfold events_after
  rw [if_pos (by simp [hinit, hcdc, hcb])]
  unfold prev_after
  rw [if_pos (by simp [hinit, hcdc])]
  rw [generate_cdc_events_eq_parts, generate_cdc_events_eq_parts]
  simp [List.append_assoc]

/-- C1 witness: a concrete initialised book with one bid at price 10,
receiving a snapshot whose only bid is at price 11, emits exactly the removal
of 10 followed by the addition of 11. -/
theorem cdc_events_are_exact_level_diff_witness :
    ([⟨"A", OrderSide.Buy, CDCEventType.LevelRemoved, ⟨10, 5, 1, []⟩, 7⟩,
      ⟨"A", OrderSide.Buy, CDCEventType.LevelAdded, ⟨11, 7, 1, []⟩, 7⟩]
      : List CDCEvent)
      = removedEvents "A" OrderSide.Buy 7
          [(10, ⟨10, 5, 1, []⟩)] [(11, ⟨11, 7, 1, []⟩)]
        ++ addedModifiedEvents "A" OrderSide.Buy 7
          [(10, ⟨10, 5, 1, []⟩)] [(11, ⟨11, 7, 1, []⟩)]
        ++ removedEvents "A" OrderSide.Sell 7 [] []
        ++ addedModifiedEvents "A" OrderSide.Sell 7 [] [] :=
  cdc_events_are_exact_level_diff
    ⟨"A", ⟨[5], true, true, 100⟩, true,
     ⟨"A", 3, [(10, ⟨10, 5, 1, []⟩)], [], 0, 0⟩,
     ⟨"A", 0, [], [], 0, 0⟩, 1, true⟩
    ⟨"A", 7, 0, 0, [⟨11, [⟨7⟩]⟩], []⟩
    ⟨"A", ⟨[5], true, true, 100⟩, true,
     ⟨"A", 7, [(11, ⟨11, 7, 1, []⟩)], [], 0, 0⟩,
     ⟨"A", 3, [(10, ⟨10, 5, 1, []⟩)], [], 0, 0⟩, 2, true⟩
    [⟨"A", OrderSide.Buy, CDCEventType.LevelRemoved, ⟨10, 5, 1, []⟩, 7⟩,
     ⟨"A", OrderSide.Buy, CDCEventType.LevelAdded, ⟨11, 7, 1, []⟩, 7⟩]
    rfl rfl rfl (by decide)

/-- C2: a BookState whose initialised flag is false on entry emits zero CDC
events on a successful `process_snapshot` — whatever `enable_cdc` and the
callback are — and afterwards the flag is true and `current.sequence` equals
the input `seq`. -/
theorem first_snapshot_emits_no_cdc
    (b : BookState) (s : FBSnapshot) (b' : BookState) (events : List CDCEvent)
    (hinit : b.initialized = false)
    (h : process_snapshot b s = some (b', events)) :
    events = [] ∧ b'.initialized = true ∧ b'.current.sequence = s.seq := by
  obtain ⟨hsym, hb', hev⟩ := process_snapshot_inv h
  subst hb'
  refine ⟨?_, rfl, rfl⟩
  rw [hev]
  unfold events_after
  rw [if_neg (by simp [hinit])]

/-- C2 witness: the spec's scenario 1 — a fresh book, CDC enabled and a
callback installed, receiving its first snapshot (seq 1, one bid, one ask)
emits no CDC events and ends initialised at sequence 1. -/
theorem first_snapshot_emits_no_cdc_witness :
    ([] : List CDCEvent) = []
    ∧ (⟨"B", ⟨[5], true, true, 100⟩, true,
        ⟨"B", 1, [(1000000, ⟨1000000, 100, 1, []⟩)],
         [(1010000, ⟨1010000, 50, 1, []⟩)], 0, 0⟩,
        ⟨"B", 0, [], [], 0, 0⟩, 1, true⟩ : BookState).initialized = true
    ∧ (⟨"B", ⟨[5], true, true, 100⟩, true,
        ⟨"B", 1, [(1000000, ⟨1000000, 100, 1, []⟩)],
         [(1010000, ⟨1010000, 50, 1, []⟩)], 0, 0⟩,
        ⟨"B", 0, [], [], 0, 0⟩, 1, true⟩ : BookState).current.sequence = 1 :=
  first_snapshot_emits_no_cdc
    ⟨"B", ⟨[5], true, true, 100⟩, true, ⟨"B", 0, [], [], 0, 0⟩,
     ⟨"B", 0, [], [], 0, 0⟩, 0, false⟩
    ⟨"B", 1, 0, 0, [⟨1000000, [⟨100⟩]⟩], [⟨1010000, [⟨50⟩]⟩]⟩
    ⟨"B", ⟨[5], true, true, 100⟩, true,
     ⟨"B", 1, [(1000000, ⟨1000000, 100, 1, []⟩)],
      [(1010000, ⟨1010000, 50, 1, []⟩)], 0, 0⟩,
     ⟨"B", 0, [], [], 0, 0⟩, 1, true⟩
    [] rfl (by decide)

/-- C8 counterexample: an initialised book with `enable_cdc = false` and a
non-empty current side map successfully processes a snapshot, yet its previous
Snapshot afterwards is NOT what current was on entry — refuting the claim's
"regardless of the enable_cdc setting". -/
theorem previous_not_copied_when_cdc_disabled_cx :
    (process_snapshot
      ⟨"A", ⟨[5], false, true, 100⟩, true,
       ⟨"A", 1, [(10, ⟨10, 5, 1, []⟩)], [], 0, 0⟩,
       ⟨"A", 0, [], [], 0, 0⟩, 0, true⟩
      ⟨"A", 2, 0, 0, [], []⟩).map
      (fun r => decide (r.1.previous
        = (⟨"A", 1, [(10, ⟨10, 5, 1, []⟩)], [], 0, 0⟩ : Snapshot)))
      = some false := by decide

/-- C8 as amended: on a successful `process_snapshot`, the previous Snapshot
afterwards equals what current was on entry precisely when the book was
initialised AND `enable_cdc` was true on entry; otherwise the previous
Snapshot is left unchanged. -/
theorem previous_after_process_snapshot
    (b : BookState) (s : FBSnapshot) (b' : BookState) (events : List CDCEvent)
    (h : process_snapshot b s = some (b', events)) :
    ((b.initialized && b.config.enable_cdc) = true → b'.previous = b.current)
    ∧ ((b.initialized && b.config.enable_cdc) = false
        → b'.previous = b.previous) := by
  obtain ⟨hsym, hb', hev⟩ := process_snapshot_inv h
  subst hb'
  constructor <;> intro hc <;> simp [prev_after, hc]

/-- C8 witness: an initialised book with CDC enabled does copy its entry
current into previous. -/
theorem previous_after_process_snapshot_witness :
    (((⟨"E", ⟨[5], true, true, 100⟩, false,
        ⟨"E", 2, [(5, ⟨5, 1, 1, []⟩)], [], 0, 0⟩,
        ⟨"E", 0, [], [], 0, 0⟩, 3, true⟩ : BookState).initialized
       && (⟨[5], true, true, 100⟩ : DepthConfig).enable_cdc) = true
      → (⟨"E", ⟨[5], true, true, 100⟩, false, ⟨"E", 3, [], [], 0, 0⟩,
          ⟨"E", 2, [(5, ⟨5, 1, 1, []⟩)], [], 0, 0⟩, 4, true⟩
          : BookState).previous
        = (⟨"E", 2, [(5, ⟨5, 1, 1, []⟩)], [], 0, 0⟩ : Snapshot))
    ∧ (((⟨"E", ⟨[5], true, true, 100⟩, false,
         ⟨"E", 2, [(5, ⟨5, 1, 1, []⟩)], [], 0, 0⟩,
         ⟨"E", 0, [], [], 0, 0⟩, 3, true⟩ : BookState).initialized
        && (⟨[5], true, true, 100⟩ : DepthConfig).enable_cdc) = false
      → (⟨"E", ⟨[5], true, true, 100⟩, false, ⟨"E", 3, [], [], 0, 0⟩,
          ⟨"E", 2, [(5, ⟨5, 1, 1, []⟩)], [], 0, 0⟩, 4, true⟩
          : BookState).previous
        = (⟨"E", 0, [], [], 0, 0⟩ : Snapshot)) :=
  previous_after_process_snapshot
    ⟨"E", ⟨[5], true, true, 100⟩, false,
     ⟨"E", 2, [(5, ⟨5, 1, 1, []⟩)], [], 0, 0⟩,
     ⟨"E", 0, [], [], 0, 0⟩, 3, true⟩
    ⟨"E", 3, 0, 0, [], []⟩
    ⟨"E", ⟨[5], true, true, 100⟩, false, ⟨"E", 3, [], [], 0, 0⟩,
     ⟨"E", 2, [(5, ⟨5, 1, 1, []⟩)], [], 0, 0⟩, 4, true⟩
    [] (by decide)

/-- C6 counterexample: a concrete successful `process_snapshot` stores its
bid level with an empty `exchanges` sequence — not a single-element sequence
containing a configured exchange name (`process_price_levels` never assigns
`exchanges`, and `DepthConfig` carries no exchange name at all). -/
theorem stored_level_exchanges_empty_cx :
    (process_snapshot
      ⟨"C", ⟨[5], true, true, 100⟩, false,
       ⟨"C", 0, [], [], 0, 0⟩, ⟨"C", 0, [], [], 0, 0⟩, 0, false⟩
      ⟨"C", 9, 0, 0, [⟨10, [⟨5⟩]⟩], []⟩).map
      (fun r => r.1.current.bid_levels.map (fun p => p.2.exchanges))
      = some [[]] ∧ ([] : List String).length ≠ 1 :=
  ⟨by decide, by decide⟩

/-- C6 as amended: after every successful `process_snapshot` with input
sequence S, `current.sequence = S`; the bid side iterates in strictly
descending price order and the ask side in strictly ascending order (hence no
duplicate prices), with each key equal to its level's price field; and each
stored level comes from an input level of the same price among the first
`max_price_levels`, with quantity the sum of that input level's order
quantities, number_of_orders their count (stated under no-overflow bounds on
the uint64/uint32 accumulators), and `exchanges` the EMPTY sequence — not a
single-element sequence naming the exchange, which the book rebuild never
populates. -/
theorem process_snapshot_current_invariants
    (b : BookState) (s : FBSnapshot) (b' : BookState) (events : List CDCEvent)
    (h : process_snapshot b s = some (b', events))
    (hq : ∀ l ∈ s.buy_side ++ s.sell_side,
      (((l : OrderMsgLevel).orders.map OrderMsg.qty).sum < U64
        ∧ (l : OrderMsgLevel).orders.length < U32)) :
    b'.current.sequence = s.seq
    ∧ SortedBy bidBefore b'.current.bid_levels
    ∧ SortedBy askBefore b'.current.ask_levels
    ∧ (∀ p ∈ b'.current.bid_levels ++ b'.current.ask_levels,
        (p : Nat × PriceLevel).2.price = p.1)
    ∧ (∀ p ∈ b'.current.bid_levels,
        ∃ l ∈ s.buy_side.take b.config.max_price_levels,
          (p : Nat × PriceLevel).1 = (l : OrderMsgLevel).price
          ∧ (p : Nat × PriceLevel).2.quantity
              = ((l : OrderMsgLevel).orders.map OrderMsg.qty).sum
          ∧ (p : Nat × PriceLevel).2.num_orders
              = (l : OrderMsgLevel).orders.length
          ∧ (p : Nat × PriceLevel).2.exchanges = [])
    ∧ (∀ p ∈ b'.current.ask_levels,
        ∃ l ∈ s.sell_side.take b.config.max_price_levels,
          (p : Nat × PriceLevel).1 = (l : OrderMsgLevel).price
          ∧ (p : Nat × PriceLevel).2.quantity
              = ((l : OrderMsgLevel).orders.map OrderMsg.qty).sum
          ∧ (p : Nat × PriceLevel).2.num_orders
              = (l : OrderMsgLevel).orders.length
          ∧ (p : Nat × PriceLevel).2.exchanges = []) := by
  obtain ⟨hsym, hb', hev⟩ := process_snapshot_inv h
  subst hb'
  have hwfb := wfSide_process_price_levels bidBefore_strict
    b.config.max_price_levels s.buy_side
  have hwfa := wfSide_process_price_levels askBefore_strict
    b.config.max_price_levels s.sell_side
  refine ⟨rfl, hwfb.1, hwfa.1, ?_, ?_, ?_⟩
  · intro p hp
    rcases List.mem_append.mp hp with hp | hp
    · exact hwfb.2.1 p hp
    · exact hwfa.2.1 p hp
  · intro p hp
    obtain ⟨l, hl, hpl⟩ := mem_process_price_levels hp
    refine ⟨l, hl, by rw [hpl], ?_, ?_, by rw [hpl]; rfl⟩
    · rw [hpl]
      exact sumQty_eq_sum
        (hq l (List.mem_append_left _ (List.take_subset _ _ hl))).1
    · rw [hpl]
      exact countOrders_eq_length
        (hq l (List.mem_append_left _ (List.take_subset _ _ hl))).2
  · intro p hp
    obtain ⟨l, hl, hpl⟩ := mem_process_price_levels hp
    refine ⟨l, hl, by rw [hpl], ?_, ?_, by rw [hpl]; rfl⟩
    · rw [hpl]
      exact sumQty_eq_sum
        (hq l (List.mem_append_right _ (List.take_subset _ _ hl))).1
    · rw [hpl]
      exact countOrders_eq_length
        (hq l (List.mem_append_right _ (List.take_subset _ _ hl))).2

/-- C6 witness: at a concrete first snapshot with two buy levels (prices 10
and 12) and one sell level, the amended invariants hold: the new current
sequence is 9 and the rebuilt bid side is strictly descending. -/
theorem process_snapshot_current_invariants_witness :
    (⟨"C", ⟨[5], true, true, 100⟩, false,
      ⟨"C", 9, [(12, ⟨12, 7, 2, []⟩), (10, ⟨10, 5, 1, []⟩)],
       [(20, ⟨20, 6, 1, []⟩)], 0, 0⟩,
      ⟨"C", 0, [], [], 0, 0⟩, 1, true⟩ : BookState).current.sequence = 9
    ∧ SortedBy bidBefore (⟨"C", ⟨[5], true, true, 100⟩, false,
      ⟨"C", 9, [(12, ⟨12, 7, 2, []⟩), (10, ⟨10, 5, 1, []⟩)],
       [(20, ⟨20, 6, 1, []⟩)], 0, 0⟩,
      ⟨"C", 0, [], [], 0, 0⟩, 1, true⟩ : BookState).current.bid_levels := by
  have h := process_snapshot_current_invariants
    ⟨"C", ⟨[5], true, true, 100⟩, false,
     ⟨"C", 0, [], [], 0, 0⟩, ⟨"C", 0, [], [], 0, 0⟩, 0, false⟩
    ⟨"C", 9, 0, 0, [⟨10, [⟨5⟩]⟩, ⟨12, [⟨3⟩, ⟨4⟩]⟩], [⟨20, [⟨6⟩]⟩]⟩
    ⟨"C", ⟨[5], true, true, 100⟩, false,
     ⟨"C", 9, [(12, ⟨12, 7, 2, []⟩), (10, ⟨10, 5, 1, []⟩)],
      [(20, ⟨20, 6, 1, []⟩)], 0, 0⟩,
     ⟨"C", 0, [], [], 0, 0⟩, 1, true⟩
    [] (by decide) (by decide)
  exact ⟨h.1, h.2.1⟩

/-- C7: for an already-initialised BookState with CDC enabled and a callback
installed, whose current side maps are well-formed, the CDC events a
successful `process_snapshot` emits, applied as a patch to the entry side maps
(delete on `LevelRemoved`, insert on `LevelAdded`, replace on
`LevelModified`), reproduce the new side maps exactly; and if the rebuilt
sides equal the entry sides (a repeated identical snapshot), zero CDC events
are emitted. -/
theorem cdc_patch_roundtrip
    (b : BookState) (s : FBSnapshot) (b' : BookState) (events : List CDCEvent)
    (hinit : b.initialized = true) (hcdc : b.config.enable_cdc = true)
    (hcb : b.has_callback = true)
    (hbid : WFSide bidBefore b.current.bid_levels)
    (hask : WFSide askBefore b.current.ask_levels)
    (h : process_snapshot b s = some (b', events)) :
    (applyPatch bidBefore b.current.bid_levels
        (events.filter (fun e => e.side == OrderSide.Buy))
        = b'.current.bid_levels
      ∧ applyPatch askBefore b.current.ask_levels
        (events.filter (fun e => e.side == OrderSide.Sell))
        = b'.current.ask_levels)
    ∧ ((b'.current.bid_levels = b.current.bid_levels
        ∧ b'.current.ask_levels = b.current.ask_levels) → events = []) := by
  obtain ⟨hsym, hb', hev⟩ := process_snapshot_inv h
  subst hb'
  have hprev : prev_after b = b.current := by
    unfold prev_after
    rw [if_pos (by simp [hinit, hcdc])]
  have heva : events =
      generate_cdc_events b.symbol b.current.bid_levels
        (current_after b s).bid_levels OrderSide.Buy s.seq
      ++ generate_cdc_events b.symbol b.current.ask_levels
        (current_after b s).ask_levels OrderSide.Sell s.seq := by
    rw [hev]
    unfold events_after
    rw [if_pos (by simp [hinit, hcdc, hcb]), hprev]
  have hsideb : ∀ e ∈ generate_cdc_events b.symbol b.current.bid_levels
      (current_after b s).bid_levels OrderSide.Buy s.seq,
      (e : CDCEvent).side = OrderSide.Buy :=
    fun e he => generate_cdc_events_side he
  have hsides : ∀ e ∈ generate_cdc_events b.symbol b.current.ask_levels
      (current_after b s).ask_levels OrderSide.Sell s.seq,
      (e : CDCEvent).side = OrderSide.Sell :=
    fun e he => generate_cdc_events_side he
  have hfb : events.filter (fun e => e.side == OrderSide.Buy)
      = generate_cdc_events b.symbol b.current.bid_levels
        (current_after b s).bid_levels OrderSide.Buy s.seq := by
    rw [heva, List.filter_append]
    rw [List.filter_eq_self.mpr (fun e he => by simp [hsideb e he]),
      List.filter_eq_nil_iff.mpr (fun e he => by simp [hsides e he]),
      List.append_nil]
  have hfs : events.filter (fun e => e.side == OrderSide.Sell)
      = generate_cdc_events b.symbol b.current.ask_levels
        (current_after b s).ask_levels OrderSide.Sell s.seq := by
    rw [heva, List.filter_append]
    rw [List.filter_eq_nil_iff.mpr (fun e he => by simp [hsideb e he]),
      List.filter_eq_self.mpr (fun e he => by simp [hsides e he]),
      List.nil_append]
  have hwfb : WFSide bidBefore (current_after b s).bid_levels :=
    wfSide_process_price_levels bidBefore_strict _ _
  have hwfa : WFSide askBefore (current_after b s).ask_levels :=
    wfSide_process_price_levels askBefore_strict _ _
  refine ⟨⟨?_, ?_⟩, ?_⟩
  · rw [hfb]
    exact applyPatch_generate bidBefore_strict hbid hwfb _ _ _
  · rw [hfs]
    exact applyPatch_generate askBefore_strict hask hwfa _ _ _
  · intro ⟨hbeq, haeq⟩
    have hbeq' : (current_after b s).bid_levels = b.current.bid_levels := hbeq
    have haeq' : (current_after b s).ask_levels = b.current.ask_levels := haeq
    rw [heva, hbeq', haeq',
      generate_cdc_events_self bidBefore_strict hbid.1 _ _ _,
      generate_cdc_events_self askBefore_strict hask.1 _ _ _,
      List.append_nil]

/-- C7 witness: at a concrete initialised book (one bid at 10, one ask at 20)
receiving a snapshot that modifies the bid and drops the ask, applying the
emitted buy-side events to the entry bid map reproduces the new bid map. -/
theorem cdc_patch_roundtrip_witness :
    applyPatch bidBefore [(10, ⟨10, 5, 1, []⟩)]
      (([⟨"D", OrderSide.Buy, CDCEventType.LevelModified, ⟨10, 6, 1, []⟩, 4⟩,
         ⟨"D", OrderSide.Sell, CDCEventType.LevelRemoved, ⟨20, 2, 1, []⟩, 4⟩]
        : List CDCEvent).filter (fun e => e.side == OrderSide.Buy))
      = [(10, ⟨10, 6, 1, []⟩)] :=
  (cdc_patch_roundtrip
    ⟨"D", ⟨[5], true, true, 100⟩, true,
     ⟨"D", 3, [(10, ⟨10, 5, 1, []⟩)], [(20, ⟨20, 2, 1, []⟩)], 0, 0⟩,
     ⟨"D", 0, [], [], 0, 0⟩, 1, true⟩
    ⟨"D", 4, 0, 0, [⟨10, [⟨6⟩]⟩], []⟩
    ⟨"D", ⟨[5], true, true, 100⟩, true,
     ⟨"D", 4, [(10, ⟨10, 6, 1, []⟩)], [], 0, 0⟩,
     ⟨"D", 3, [(10, ⟨10, 5, 1, []⟩)], [(20, ⟨20, 2, 1, []⟩)], 0, 0⟩, 2, true⟩
    [⟨"D", OrderSide.Buy, CDCEventType.LevelModified, ⟨10, 6, 1, []⟩, 4⟩,
     ⟨"D", OrderSide.Sell, CDCEventType.LevelRemoved, ⟨20, 2, 1, []⟩, 4⟩]
    rfl rfl rfl (by decide) (by decide) (by decide)).1.1

theorem collect_step_pos (before : Nat → Nat → Bool) (depth : Nat)
    (exchange_name : String) (acc : List (Nat × PriceLevel) × Nat)
    (l : OrderMsgLevel) (hacc : ∀ p ∈ acc.1, 0 < (p : Nat × PriceLevel).1) :
    ∀ p ∈ (if acc.2 < depth then
        (let lv := convert_price_level exchange_name l
         if 0 < lv.price ∧ 0 < lv.quantity then
           (insertS before lv.price lv acc.1, acc.2 + 1)
         else acc)
      else acc).1, 0 < (p : Nat × PriceLevel).1 := by
  by_cases h1 : acc.2 < depth
  · rw [if_pos h1]
    show ∀ p ∈ (if 0 < (convert_price_level exchange_name l).price
        ∧ 0 < (convert_price_level exchange_name l).quantity then
        (insertS before (convert_price_level exchange_name l).price
          (convert_price_level exchange_name l) acc.1, acc.2 + 1)
      else acc).1, 0 < (p : Nat × PriceLevel).1
    by_cases h2 : 0 < (convert_price_level exchange_name l).price
      ∧ 0 < (convert_price_level exchange_name l).quantity
    · rw [if_pos h2]
      intro p hp
      rcases mem_insertS hp with hp | hp
      · rw [hp]
        exact h2.1
      · exact hacc p hp
    · rw [if_neg h2]
      exact hacc
  · rw [if_neg h1]
    exact hacc

theorem collect_side_levels_aux_pos (before : Nat → Nat → Bool) (depth : Nat)
    (exchange_name : String) (levels : List OrderMsgLevel) :
    ∀ acc : List (Nat × PriceLevel) × Nat,
      (∀ p ∈ acc.1, 0 < (p : Nat × PriceLevel).1) →
      ∀ p ∈ (levels.foldl
        (fun (acc : List (Nat × PriceLevel) × Nat) l =>
          if acc.2 < depth then
            let lv := convert_price_level exchange_name l
            if 0 < lv.price ∧ 0 < lv.quantity then
              (insertS before lv.price lv acc.1, acc.2 + 1)
            else acc
          else acc)
        acc).1, 0 < (p : Nat × PriceLevel).1 := by
  induction levels with
  | nil => intro acc hacc p hp; exact hacc p hp
  | cons l t ih =>
    intro acc hacc
    exact ih _ (collect_step_pos before depth exchange_name acc l hacc)

/-- C9 counterexample: a concrete successful `process_snapshot` whose only
buy-side record has price 0 stores that level at key 0 in the rebuilt
`bid_levels` — `OrderBook::process_price_levels` has no zero-price check, so
"decoding skips that level" is false for the book-state rebuild. -/
theorem zero_price_level_stored_cx :
    (process_snapshot
      ⟨"Z", ⟨[5], true, true, 100⟩, false,
       ⟨"Z", 0, [], [], 0, 0⟩, ⟨"Z", 0, [], [], 0, 0⟩, 0, false⟩
      ⟨"Z", 1, 0, 0, [⟨0, [⟨5⟩]⟩], []⟩).map
      (fun r => r.1.current.bid_levels) = some [(0, ⟨0, 5, 1, []⟩)] := by
  decide

/-- C9 as amended: in `MarketDepthProcessor::publish_snapshots` a level with
price 0 (or quantity 0) is indeed skipped — every key stored by
`collect_side_levels` is positive — and the snapshot as a whole still
processes successfully (`process_message` returns `true` on a decodable
snapshot envelope); in `OrderBook::process_price_levels`, by contrast, a
zero-price level is stored like any other. -/
theorem publish_path_skips_zero_price (before : Nat → Nat → Bool)
    (depth : Nat) (exchange_name : String) (levels : List OrderMsgLevel)
    (depth_levels : List Nat) (hasher : String → Nat) (num_partitions : Nat)
    (s : FBSnapshot) :
    (collect_side_levels before depth exchange_name levels).all
      (fun p => decide (0 < p.1)) = true
    ∧ (process_message depth_levels exchange_name hasher num_partitions
        ⟨true, some ⟨BookMsgType.OrderBookSnapshot, some s⟩⟩).1 = true := by
  constructor
  · rw [List.all_eq_true]
    intro p hp
    rw [decide_eq_true_eq]
    exact collect_side_levels_aux_pos before depth exchange_name levels
      ([], 0) (fun p hp => by cases hp) p hp
  · rfl

/-- C3 counterexample: a consumed message whose envelope tag is not
`OrderBookSnapshot` does NOT leave `messages_processed` unchanged — the loop
counts the skip as a success and increments it from 0 to 1. -/
theorem nonsnapshot_message_processed_increments_cx :
    (processing_loop_step [5] "CXA" (fun _ => 0) 8 ⟨0, 0, 0, 0⟩
      ⟨true, some ⟨BookMsgType.Other 3, none⟩⟩).1.messages_processed ≠ 0 := by
  decide

/-- C3 as amended: for every consumed message with a non-empty payload whose
envelope msg_type is not `OrderBookSnapshot`, one loop iteration increments
`messages_consumed` by 1 AND `messages_processed` by 1 (the skip returns
`true`, which the loop counts as a processed message), leaves
`processing_errors` and `messages_published` unchanged, and publishes
nothing. -/
theorem nonsnapshot_message_metrics (depth_levels : List Nat)
    (exchange_name : String) (hasher : String → Nat) (num_partitions : Nat)
    (m : Metrics) (msg : ConsumedMessage) (env : Envelope)
    (hp : msg.payload_valid = true) (he : msg.envelope = some env)
    (ht : env.msg_type ≠ BookMsgType.OrderBookSnapshot) :
    processing_loop_step depth_levels exchange_name hasher num_partitions m msg
      = (⟨(m.messages_consumed + 1) % U64, (m.messages_processed + 1) % U64,
          m.messages_published, m.processing_errors⟩, []) := by
  simp [processing_loop_step, process_message, hp, he, ht]

/-- C3 witness: concrete metrics (3 consumed, 1 processed, 2 published) and a
non-snapshot envelope: consumed and processed step to 4 and 2, published and
errors stay, nothing is published. -/
theorem nonsnapshot_message_metrics_witness :
    processing_loop_step [5] "CXA" (fun _ => 0) 8 ⟨3, 1, 2, 0⟩
      ⟨true, some ⟨BookMsgType.Other 7, none⟩⟩
      = (⟨(3 + 1) % U64, (1 + 1) % U64, 2, 0⟩, []) :=
  nonsnapshot_message_metrics [5] "CXA" (fun _ => 0) 8 ⟨3, 1, 2, 0⟩
    ⟨true, some ⟨BookMsgType.Other 7, none⟩⟩ ⟨BookMsgType.Other 7, none⟩
    rfl rfl (by decide)

/-- C4 reference computation: the canonical FNV-1a 64-bit hash of "ABC"
(modelled from the spec, §6.4) taken modulo the default 16 partitions is 11.
The code's `MessageRouter::calculate_partition` instead computes
`std::hash<std::string>("ABC") % 16`, an implementation-defined value. -/
theorem fnv1a64_partition_ABC : fnv1a64 "ABC" % 16 = 11 := by decide

set_option maxRecDepth 8192 in
/-- C5 counterexample: with `use_depth_in_topic = false`, `route_snapshot`
does not return `snapshot_topic_prefix + symbol` — it returns the prefix with
its trailing character removed ("market_depth_snapshot"), independent of the
symbol. -/
theorem route_snapshot_per_symbol_topic_cx :
    (route_snapshot
      ⟨"market_depth_snapshot_", "market_depth_cdc", false, true, 16⟩
      (fun _ => 0) "AAPL" 5 "{}").topic
      ≠ "market_depth_snapshot_" ++ "AAPL" := by
  decide

/-- C5 as amended: `route_snapshot` always keys the message by the symbol;
the topic is `snapshot_topic_prefix + str(depth)` when `use_depth_in_topic`
is true, and otherwise the prefix with its last character removed
(`substr(0, length - 1)`) — the symbol never appears in the topic. -/
theorem route_snapshot_topic_and_key (cfg : TopicConfig)
    (hasher : String → Nat) (symbol : String) (depth : Nat)
    (payload : String) :
    (route_snapshot cfg hasher symbol depth payload).key = symbol
    ∧ (route_snapshot cfg hasher symbol depth payload).topic
        = (if cfg.use_depth_in_topic
           then cfg.snapshot_topic_stem ++ toString depth
           else cfg.snapshot_topic_stem.take
             (cfg.snapshot_topic_stem.length - 1)) := by
  unfold route_snapshot
  exact ⟨rfl, rfl⟩

/-- C10: when both truncated sides are non-empty, the `market_stats` spread is
the top-ask price minus the top-bid price in wrapping unsigned 64-bit
arithmetic — equal to the plain difference when the book is not crossed and to
`2^64 - (bid - ask)` (wrap-around, not a negative number) when it is — and
`mid_price` is the uint64 wrap-around sum divided by two with integer floor
division. -/
theorem snapshot_spread_mid_wraps (s : Snapshot) (depth : Nat)
    (ta tb : PriceLevel) (tas tbs : List PriceLevel)
    (hta : get_top_asks s depth = ta :: tas)
    (htb : get_top_bids s depth = tb :: tbs)
    (ha : ta.price < U64) (hb : tb.price < U64) :
    snapshot_market_stats s depth
      = some ((if tb.price ≤ ta.price then ta.price - tb.price
          else U64 - (tb.price - ta.price)),
          ((ta.price + tb.price) % U64) / 2) := by
  unfold snapshot_market_stats
  rw [hta, htb]
  show some ((U64 + ta.price - tb.price) % U64, ((ta.price + tb.price) % U64) / 2)
      = some ((if tb.price ≤ ta.price then ta.price - tb.price
          else U64 - (tb.price - ta.price)), ((ta.price + tb.price) % U64) / 2)
  have hspread : (U64 + ta.price - tb.price) % U64
      = (if tb.price ≤ ta.price then ta.price - tb.price
         else U64 - (tb.price - ta.price)) := by
    by_cases hc : tb.price ≤ ta.price
    · rw [if_pos hc]
      have h1 : U64 + ta.price - tb.price = U64 + (ta.price - tb.price) := by
        omega
      rw [h1, Nat.add_mod_left, Nat.mod_eq_of_lt (by omega)]
    · rw [if_neg hc]
      have hpos : 0 < U64 := by decide
      have h1 : U64 + ta.price - tb.price = U64 - (tb.price - ta.price) := by
        omega
      rw [h1, Nat.mod_eq_of_lt (by omega)]
  rw [hspread]

/-- C10 witness: a crossed one-level book (top bid 110, top ask 100): the
spread wraps to `2^64 - 10` instead of being negative, and the mid price is
105. -/
theorem snapshot_spread_mid_wraps_witness :
    snapshot_market_stats
      ⟨"X", 1, [(110, ⟨110, 1, 1, []⟩)], [(100, ⟨100, 1, 1, []⟩)], 0, 0⟩ 5
      = some ((if (110 : Nat) ≤ 100 then (100 : Nat) - 110
          else U64 - (110 - 100)),
          (((100 : Nat) + 110) % U64) / 2) :=
  snapshot_spread_mid_wraps
    ⟨"X", 1, [(110, ⟨110, 1, 1, []⟩)], [(100, ⟨100, 1, 1, []⟩)], 0, 0⟩ 5
    ⟨100, 1, 1, []⟩ ⟨110, 1, 1, []⟩ [] [] rfl rfl (by decide) (by decide)

end MD
